import Mathlib

/-!
Verification of the fin-tracker transaction combiner
(`src/combine_transactions.py`, `src/utils/parsers.py`).

The embedding models CSV data as lists of rows; each row is an association
list from column name to cell value.  Python string operations are modelled
by structural functions over `List Char`; `pandas` column operations become
per-row steps lifted over the row list, with Python exceptions modelled by
`Option` (an exception inside a parser makes the whole parse return `none`,
matching the `try/except: return None` wrappers in the source).
-/

/-! ## Character-level string utilities (Python `str` operations) -/

/-- Character list of a string. -/
def chars (s : String) : List Char := s.data

/-- Lower-case an ASCII letter, as Python `str.lower` does on ASCII input. -/
def lowerChar (c : Char) : Char :=
  if 'A' ≤ c && c ≤ 'Z' then Char.ofNat (c.toNat + 32) else c

/-- Python `s.lower()` on a character list. -/
def lowerChars (l : List Char) : List Char := l.map lowerChar

/-- Test whether `needle` is a prefix of `hay`. -/
def isPrefixOfChars : List Char → List Char → Bool
  | [], _ => true
  | _ :: _, [] => false
  | a :: as, b :: bs => a = b && isPrefixOfChars as bs

/-- Python substring containment `needle in hay`. -/
def containsSub (needle : List Char) : List Char → Bool
  | [] => isPrefixOfChars needle []
  | b :: bs => isPrefixOfChars needle (b :: bs) || containsSub needle bs

/-- Python `s.split(c)` for a one-character separator. -/
def splitOnChar (c : Char) : List Char → List (List Char)
  | [] => [[]]
  | a :: as =>
    match splitOnChar c as with
    | [] => [[a]]
    | g :: gs => if a = c then [] :: g :: gs else (a :: g) :: gs

/-- Python `','.join(headers)`. -/
def intercalateComma : List (List Char) → List Char
  | [] => []
  | [l] => l
  | l :: ls => l ++ ',' :: intercalateComma ls

/-- Keep only the digit characters, Python `''.join(filter(str.isdigit, s))`. -/
def digitsOf (l : List Char) : List Char := l.filter Char.isDigit

/-- Last four characters of a list, Python `s[-4:]` for strings of length ≥ 4. -/
def lastFour (l : List Char) : List Char := l.drop (l.length - 4)

/-- Numeric value of a list of digit characters. -/
def digitsToNat (l : List Char) : Nat :=
  l.foldl (fun n c => n * 10 + (c.toNat - '0'.toNat)) 0

/-! ## Date and amount parsing

`pd.to_datetime` on the statement files parses `MM/DD/YYYY` dates; a date is
encoded as the natural number `year*10000 + month*100 + day`, which orders
dates chronologically.  A value that fails to parse raises in the source,
modelled by `none`. -/

/-- Parse a date string in `MM/DD/YYYY` form into its chronological key. -/
def parseDate (l : List Char) : Option Nat :=
  match splitOnChar '/' l with
  | [m, d, y] =>
    if m ≠ [] && d ≠ [] && y ≠ [] &&
       m.all Char.isDigit && d.all Char.isDigit && y.all Char.isDigit &&
       decide (1 ≤ digitsToNat m) && decide (digitsToNat m ≤ 12) &&
       decide (1 ≤ digitsToNat d) && decide (digitsToNat d ≤ 31) then
      some (digitsToNat y * 10000 + digitsToNat m * 100 + digitsToNat d)
    else none
  | _ => none

/-- Parse a decimal amount string (Python `float(...)` on statement amounts).
The result is `(numerator, scale)` representing `numerator / 10^scale`; the
sign of the value is the sign of the numerator. -/
def parseAmount (l : List Char) : Option (Int × Nat) :=
  let (sign, body) :=
    match l with
    | '-' :: rest => ((-1 : Int), rest)
    | _ => ((1 : Int), l)
  match splitOnChar '.' body with
  | [i] =>
    if i ≠ [] && i.all Char.isDigit then
      some (sign * (digitsToNat i : Int), 0)
    else none
  | [i, f] =>
    if (i ≠ [] || f ≠ []) && i.all Char.isDigit && f.all Char.isDigit then
      some (sign * (digitsToNat (i ++ f) : Int), f.length)
    else none
  | _ => none

/-! ## Cells and rows -/

/-- A cell of a DataFrame: a raw string, a parsed calendar date, or a parsed
signed decimal amount (numerator and decimal scale). -/
inductive Cell where
  | str (s : String)
  | date (n : Nat)
  | num (n : Int) (scale : Nat)
deriving DecidableEq

/-- A DataFrame row: association list from column name to cell. -/
abbrev Row := List (String × Cell)

/-- First-match association lookup (Python dict access and pandas column
access, both of which see at most one entry per name). -/
def rlookup {β : Type _} (a : String) : List (String × β) → Option β
  | [] => none
  | (k, v) :: ps => if k = a then some v else rlookup a ps

/-! ## Python dict literals

A Python `dict` literal with a duplicated key keeps the first insertion
position but the last value; `dictOf` reproduces that, which is what makes
the duplicated `'Posting Date'` key in the Chase checking mapping shadow
`'Date'` with `'PostDate'`. -/

/-- Insert a binding into a dict, Python assignment semantics. -/
def dictInsert (d : List (String × String)) (k v : String) : List (String × String) :=
  if d.any (fun p => p.1 == k) then
    d.map (fun p => if p.1 == k then (k, v) else p)
  else d ++ [(k, v)]

/-- Build a dict from the pair list of a Python dict literal. -/
def dictOf (ps : List (String × String)) : List (String × String) :=
  ps.foldl (fun d p => dictInsert d p.1 p.2) []

/-- Pair list of the Chase checking/debit `column_mapping` literal, in source
order, including the duplicated `'Posting Date'` key. -/
def chaseCheckingPairs : List (String × String) :=
  [("Posting Date", "Date"),
   ("Posting Date", "PostDate"),
   ("Details", "CredDeb"),
   ("Description", "Description"),
   ("Amount", "Amount"),
   ("Type", "TransactionType"),
   ("Check or Slip #", "CheckNumber")]

/-- The Chase checking/debit column mapping as Python evaluates the literal. -/
def chaseCheckingMapping : List (String × String) := dictOf chaseCheckingPairs

/-- The Chase credit-card column mapping. -/
def chaseCreditMapping : List (String × String) :=
  dictOf
    [("Transaction Date", "Date"),
     ("Post Date", "PostDate"),
     ("Description", "Description"),
     ("Category", "Category"),
     ("Type", "TransactionType"),
     ("Amount", "Amount"),
     ("Memo", "Memo")]

/-- The Discover column mapping. -/
def discoverMapping : List (String × String) :=
  dictOf
    [("Trans. Date", "Date"),
     ("Post Date", "PostDate"),
     ("Description", "Description"),
     ("Category", "Category"),
     ("Amount", "Amount")]

/-- Canonical name of a raw column under a mapping; unmapped names are kept
(the source only renames columns that exist in the mapping). -/
def renameKey (m : List (String × String)) (k : String) : String :=
  match rlookup k m with
  | some v => v
  | none => k

/-! ## Schema detection (`identify_file_type`) -/

/-- The `headers_str` value of `identify_file_type`: comma-joined,
lower-cased header row. -/
def headersJoined (headers : List String) : List Char :=
  lowerChars (intercalateComma (headers.map chars))

/-- The `identify_file_type` function of `combine_transactions.py`: institution
from a case-insensitive substring of the filename stem, account type from
substrings of the comma-joined lower-cased header row (Discover is always
`credit`).  Total: the source wraps the body in `try/except` and the body
itself cannot raise on any header list. -/
def identify_file_type (stem : String) (headers : List String) :
    Option String × Option String :=
  let headersStr := headersJoined headers
  let stemL := lowerChars (chars stem)
  let bank : Option String :=
    if containsSub (chars "chase") stemL then some "chase"
    else if containsSub (chars "discover") stemL then some "discover"
    else none
  let accountType : Option String :=
    if bank = some "chase" then
      if containsSub (chars "details") headersStr &&
         containsSub (chars "balance") headersStr then some "checking"
      else if containsSub (chars "transaction date") headersStr &&
              containsSub (chars "category") headersStr then some "credit"
      else none
    else if bank = some "discover" then some "credit"
    else none
  (bank, accountType)

/-! ## Account number extraction and account ids
(`process_transaction_files`) -/

/-- One segment is purely four digits: Python `part.isdigit() and len(part) == 4`. -/
def isPureFourDigits (l : List Char) : Bool :=
  l.length == 4 && l.all Char.isDigit

/-- The `for part in parts` loop of `process_transaction_files`: each segment
is tested first for being purely four digits, then for containing a digit
run of length at least four (taking its last four digits); the loop breaks
at the first segment that satisfies either test. -/
def scanParts : List (List Char) → Option (List Char)
  | [] => none
  | p :: rest =>
    if isPureFourDigits p then some p
    else if 4 ≤ (digitsOf p).length then some (lastFour (digitsOf p))
    else scanParts rest

/-- Account-number extraction from a filename stem. -/
def extract_account_number (stem : String) : Option String :=
  if (chars stem).contains '_' then
    (scanParts (splitOnChar '_' (chars stem))).map (fun l => String.mk l)
  else if 4 ≤ (digitsOf (chars stem)).length then
    some (String.mk (lastFour (digitsOf (chars stem))))
  else none

/-- Filename-keyword fallback for the Chase account type. -/
def chase_type_from_filename (stem : String) : Option String :=
  let l := lowerChars (chars stem)
  if containsSub (chars "check") l || containsSub (chars "debit") l then
    some "checking"
  else if containsSub (chars "credit") l || containsSub (chars "card") l then
    some "credit"
  else none

/-- Detected Chase account type: header-based detection first, filename
keywords only when that yields nothing. -/
def chase_detected_type (stem : String) (hdr : List String) : Option String :=
  match (identify_file_type stem hdr).2 with
  | some t => some t
  | none => chase_type_from_filename stem

/-- Chase account id composition from `process_transaction_files`. -/
def chase_account_id (num ty : Option String) : String :=
  match num, ty with
  | some n, some t => "chase_" ++ t ++ n
  | some n, none => "chase" ++ n
  | none, some t => "chase_" ++ t
  | none, none => "chase_unknown"

/-- Discover account id composition from `process_transaction_files`. -/
def discover_account_id (num : Option String) : String :=
  match num with
  | some n => "discover" ++ n
  | none => "discover"

/-- Stated by the specification (§4.3 step 1), for comparison with the
source behaviour `scanParts`: first look for a segment that is purely four
digits anywhere in the stem; only when none exists, fall back to the first
segment containing a digit run of length at least four. -/
def specSegmentNumber (parts : List (List Char)) : Option (List Char) :=
  match parts.find? isPureFourDigits with
  | some p => some p
  | none =>
    match parts.find? (fun p => 4 ≤ (digitsOf p).length) with
    | some p => some (lastFour (digitsOf p))
    | none => none

/-- Stated by the specification (§4.3 step 4), for comparison with the
source behaviour: the composition rule for the account id of any
institution, with the `"<institution>_unknown"` sentinel. -/
def specAccountId (institution : String) (ty num : Option String) : String :=
  match ty, num with
  | some t, some n => institution ++ "_" ++ t ++ n
  | some t, none => institution ++ "_" ++ t
  | none, some n => institution ++ n
  | none, none => institution ++ "_unknown"

/-! ## Column normalization (`parsers.py`) -/

/-- Option-valued map over a list: `none` as soon as one element fails, the
behaviour of a raising pandas column operation. -/
def mapMO (f : α → Option β) : List α → Option (List β)
  | [] => some []
  | a :: as =>
    match f a, mapMO f as with
    | some b, some bs => some (b :: bs)
    | _, _ => none

/-- Apply a cell transformation (keyed by column name) to every cell of a
row; a failing cell fails the row. -/
def cellStep (f : String → Cell → Option Cell) (r : Row) : Option Row :=
  mapMO (fun p => (f p.1 p.2).map (fun c => (p.1, c))) r

/-- Date conversion for column `c`: `pd.to_datetime(df[c]).dt.date`.  Only
string cells in column `c` are touched; an unparseable value raises. -/
def dateF (c : String) (k : String) (v : Cell) : Option Cell :=
  if k == c then
    match v with
    | Cell.str s => (parseDate (chars s)).map Cell.date
    | _ => none
  else some v

/-- Amount conversion: `astype(float)`, negated when `flip` is set (the
Discover sign rule `-1 * df['Amount']`). -/
def amtF (flip : Bool) (k : String) (v : Cell) : Option Cell :=
  if k == "Amount" then
    match v with
    | Cell.str s =>
      (parseAmount (chars s)).map
        (fun p => Cell.num (if flip then -p.1 else p.1) p.2)
    | _ => none
  else some v

/-- TransactionType synthesis, `np.where(df['Amount'] >= 0, 'CREDIT', 'DEBIT')`;
looking up a missing `Amount` column raises a `KeyError` in the source. -/
def synthRow (r : Row) : Option Row :=
  match rlookup "Amount" r with
  | some (Cell.num n _) =>
    some (r ++ [("TransactionType", Cell.str (if 0 ≤ n then "CREDIT" else "DEBIT"))])
  | _ => none

/-- Read one raw CSV data row against the header row (`pd.read_csv`). -/
def readRow (hdr : List String) (cells : List String) : Row :=
  hdr.zip (cells.map Cell.str)

/-- Keep the columns of `existing`, in original column order (the Chase
projection `df[[col for col in df.columns if col in existing_columns]]`). -/
def projectRowChase (existing : List String) (r : Row) : Row :=
  r.filter (fun p => existing.contains p.1)

/-- Keep the columns listed in `cols`, in `cols` order (the Discover
projection `df[[col for col in column_mapping.keys() if col in existing]]`). -/
def projectRowDiscover (cols : List String) (r : Row) : Row :=
  cols.filterMap (fun c => (rlookup c r).map (fun v => (c, v)))

/-- Rename the columns of a row by the mapping. -/
def renameRow (m : List (String × String)) (r : Row) : Row :=
  r.map (fun p => (renameKey m p.1, p.2))

/-- A guarded column phase: applied only when the column is present
(`if c in df.columns:` in the source). -/
def phase (b : Bool) (f : Row → Option Row) (d : List Row) : Option (List Row) :=
  if b then mapMO f d else some d

/-- Chase format detection inside `parse_chase_csv`:
`'Details' in df.columns and 'Posting Date' in df.columns and 'Balance' in df.columns`. -/
def chase_is_checking (hdr : List String) : Bool :=
  hdr.contains "Details" && hdr.contains "Posting Date" && hdr.contains "Balance"

/-- The column mapping `parse_chase_csv` selects for a header row. -/
def chaseMappingOf (hdr : List String) : List (String × String) :=
  if chase_is_checking hdr then chaseCheckingMapping else chaseCreditMapping

/-- The `existing_columns` of `parse_chase_csv` (in original column order;
the source keeps a set, and only membership in it is ever used). -/
def chaseExisting (hdr : List String) : List String :=
  hdr.filter (fun c => ((chaseMappingOf hdr).map Prod.fst).contains c)

/-- The column names of the projected, renamed Chase frame. -/
def chaseCols (hdr : List String) : List String :=
  (chaseExisting hdr).map (renameKey (chaseMappingOf hdr))

/-- Projection and rename of one raw Chase row. -/
def chasePre (hdr : List String) (cs : List String) : Row :=
  renameRow (chaseMappingOf hdr) (projectRowChase (chaseExisting hdr) (readRow hdr cs))

/-- The `parse_chase_csv` function of `parsers.py`.  `none` models every path
on which the source returns `None` (the explicit no-recognized-columns
return and any raised exception caught by the wrapper). -/
def parse_chase_csv (hdr : List String) (rows : List (List String)) :
    Option (List Row) :=
  if (chaseExisting hdr).isEmpty then none
  else
    match phase ((chaseCols hdr).contains "Date") (cellStep (dateF "Date"))
            (rows.map (chasePre hdr)) with
    | none => none
    | some d1 =>
      match phase ((chaseCols hdr).contains "PostDate") (cellStep (dateF "PostDate")) d1 with
      | none => none
      | some d2 => phase ((chaseCols hdr).contains "Amount") (cellStep (amtF false)) d2

/-- The filtered mapping keys `parse_discover_csv` projects onto, in mapping
order (`[col for col in column_mapping.keys() if col in existing_columns]`). -/
def discoverCols0 (hdr : List String) : List String :=
  (discoverMapping.map Prod.fst).filter (fun c => hdr.contains c)

/-- The column names of the projected, renamed Discover frame. -/
def discoverCols (hdr : List String) : List String :=
  (discoverCols0 hdr).map (renameKey discoverMapping)

/-- Projection and rename of one raw Discover row. -/
def discoverPre (hdr : List String) (cs : List String) : Row :=
  renameRow discoverMapping (projectRowDiscover (discoverCols0 hdr) (readRow hdr cs))

/-- The `parse_discover_csv` function of `parsers.py`.  The projection
iterates the mapping keys; the Amount sign is flipped; `TransactionType`
is synthesized from the sign of the amount when absent, raising (hence
`none`) when there is no `Amount` column. -/
def parse_discover_csv (hdr : List String) (rows : List (List String)) :
    Option (List Row) :=
  match phase ((discoverCols hdr).contains "Date") (cellStep (dateF "Date"))
          (rows.map (discoverPre hdr)) with
  | none => none
  | some d1 =>
    match phase ((discoverCols hdr).contains "PostDate") (cellStep (dateF "PostDate")) d1 with
    | none => none
    | some d2 =>
      match phase ((discoverCols hdr).contains "Amount") (cellStep (amtF true)) d2 with
      | none => none
      | some d3 =>
        if (discoverCols hdr).contains "TransactionType" then some d3
        else if (discoverCols hdr).contains "Amount" then mapMO synthRow d3
        else none

/-! ## Per-file record emission (`process_transaction_files`) -/

/-- Records emitted for one Chase file: the parsed rows, each extended with
the `Account` id and, only when the account type was detected, an
`AccountType` column.  A parse failure or empty parse emits nothing. -/
def emit_chase (stem : String) (hdr : List String) (rows : List (List String)) :
    List Row :=
  match parse_chase_csv hdr rows with
  | none => []
  | some rs =>
    if rs.isEmpty then []
    else rs.map (fun r =>
      (r ++ [("Account", Cell.str (chase_account_id (extract_account_number stem)
                (chase_detected_type stem hdr)))]) ++
      (match chase_detected_type stem hdr with
       | some t => [("AccountType", Cell.str t)]
       | none => []))

/-- Records emitted for one Discover file: the parsed rows, each extended
with the `Account` id and a constant `AccountType` of `credit`. -/
def emit_discover (stem : String) (hdr : List String) (rows : List (List String)) :
    List Row :=
  match parse_discover_csv hdr rows with
  | none => []
  | some rs =>
    if rs.isEmpty then []
    else rs.map (fun r =>
      (r ++ [("Account", Cell.str (discover_account_id (extract_account_number stem)))]) ++
      [("AccountType", Cell.str "credit")])

/-! ## Aggregation (`main`, lines 265-267)

`combined_df.sort_values("Date")` sorts ascending on the `Date` column with
missing values placed last; pandas masks the missing entries, argsorts the
dated ones, and appends the missing positions in their original order. -/

/-- Date sort key of a record, when it has one. -/
def dateKey (r : Row) : Option Nat :=
  match rlookup "Date" r with
  | some (Cell.date n) => some n
  | _ => none

/-- Whether a record carries a date. -/
def hasDate (r : Row) : Bool := (dateKey r).isSome

/-- Sort key of a dated record. -/
def keyNat (r : Row) : Nat := (dateKey r).getD 0

/-- Insert a record into a date-sorted list, after all records with a key
less than or equal to its own. -/
def insertSorted (r : Row) : List Row → List Row
  | [] => [r]
  | x :: xs => if keyNat r < keyNat x then r :: x :: xs else x :: insertSorted r xs

/-- Sort records ascending by date key. -/
def sortDated (rs : List Row) : List Row := rs.foldr insertSorted []

/-- The `sort_values("Date")` step: dated records ascending, records with no
date appended last in their original relative order. -/
def sortOnDate (rs : List Row) : List Row :=
  sortDated (rs.filter hasDate) ++ rs.filter (fun r => !hasDate r)

/-- Aggregation of per-file record sets: concatenation then the date sort. -/
def aggregate (sets : List (List Row)) : List Row :=
  sortOnDate sets.flatten

/-- Ordering asserted of the aggregated output: ascending on dates, any
record without a date after every dated record. -/
def dateLe (a b : Row) : Prop :=
  match dateKey a, dateKey b with
  | some x, some y => x ≤ y
  | none, some _ => False
  | _, none => True
section Helpers

variable {α β γ : Type _}

/-- A successful `mapMO` relates input and output elementwise. -/
theorem mapMO_forall₂ {f : α → Option β} :
    ∀ {l : List α} {m : List β}, mapMO f l = some m →
      List.Forall₂ (fun a b => f a = some b) l m := by
  intro l
  induction l with
  | nil => intro m h; simp [mapMO] at h; subst h; exact List.Forall₂.nil
  | cons a as ih =>
    intro m h
    simp only [mapMO] at h
    cases hfa : f a with
    | none => rw [hfa] at h; simp at h
    | some b =>
      rw [hfa] at h
      cases hrest : mapMO f as with
      | none => rw [hrest] at h; simp at h
      | some bs =>
        rw [hrest] at h
        simp at h
        subst h
        exact List.Forall₂.cons hfa (ih hrest)

/-- One failing element fails the whole `mapMO`. -/
theorem mapMO_none_of_mem {f : α → Option β} {a : α} :
    ∀ {l : List α}, a ∈ l → f a = none → mapMO f l = none := by
  intro l
  induction l with
  | nil => intro h; simp at h
  | cons x xs ih =>
    intro hmem hfa
    rcases List.mem_cons.mp hmem with h | h
    · subst h; simp [mapMO, hfa]
    · simp only [mapMO]
      rw [ih h hfa]
      cases f x <;> simp

/-- Every output element of a successful `mapMO` comes from an input element. -/
theorem forall₂_mem_rev {R : α → β → Prop} :
    ∀ {l : List α} {m : List β}, List.Forall₂ R l m → ∀ {b : β}, b ∈ m →
      ∃ a ∈ l, R a b := by
  intro l m h
  induction h with
  | nil => intro b hb; simp at hb
  | cons hab _ ih =>
    intro b hb
    rcases List.mem_cons.mp hb with rfl | hmem
    · exact ⟨_, List.mem_cons_self _ _, hab⟩
    · rcases ih hmem with ⟨a, ha, hfa⟩
      exact ⟨a, List.mem_cons_of_mem _ ha, hfa⟩

theorem mapMO_mem_rev {f : α → Option β} {l : List α} {m : List β}
    (h : mapMO f l = some m) {b : β} (hb : b ∈ m) : ∃ a ∈ l, f a = some b :=
  forall₂_mem_rev (mapMO_forall₂ h) hb

/-- Composition of elementwise relations. -/
theorem forall₂_comp {R : α → β → Prop} {S : β → γ → Prop} :
    ∀ {l : List α} {m : List β} {n : List γ},
      List.Forall₂ R l m → List.Forall₂ S m n →
      List.Forall₂ (fun a c => ∃ b, R a b ∧ S b c) l n := by
  intro l m n h1
  induction h1 generalizing n with
  | nil => intro h2; cases h2; exact List.Forall₂.nil
  | cons hab _ ih =>
    intro h2
    cases h2 with
    | cons hbc htail => exact List.Forall₂.cons ⟨_, hab, hbc⟩ (ih htail)

/-- Unfolding of a successful guarded column phase, elementwise. -/
theorem phase_forall₂ {b : Bool} {f : Row → Option Row} {d d2 : List Row}
    (h : phase b f d = some d2) :
    List.Forall₂ (fun r r2 => (b = true ∧ f r = some r2) ∨ (b = false ∧ r = r2)) d d2 := by
  cases b with
  | false =>
    simp [phase] at h
    subst h
    induction d with
    | nil => exact List.Forall₂.nil
    | cons x xs ih => exact List.Forall₂.cons (Or.inr ⟨rfl, rfl⟩) ih
  | true =>
    simp only [phase, if_pos] at h
    exact (mapMO_forall₂ h).imp (fun a b hab => Or.inl ⟨rfl, hab⟩)

/-- Every output record of a phase comes from an input record. -/
theorem phase_mem_rev {b : Bool} {f : Row → Option Row} {d d2 : List Row}
    (h : phase b f d = some d2) {r2 : Row} (hr : r2 ∈ d2) :
    ∃ r ∈ d, (b = true ∧ f r = some r2) ∨ (b = false ∧ r = r2) :=
  forall₂_mem_rev (phase_forall₂ h) hr

end Helpers
section RowLemmas

variable {β : Type _}

/-- Lookup distributes over append, preferring the left list. -/
theorem rlookup_append (a : String) : ∀ (l1 l2 : List (String × β)),
    rlookup a (l1 ++ l2) =
      match rlookup a l1 with
      | some v => some v
      | none => rlookup a l2 := by
  intro l1 l2
  induction l1 with
  | nil => simp [rlookup]
  | cons p ps ih =>
    rcases p with ⟨k, v⟩
    by_cases hk : k = a
    · simp [rlookup, hk]
    · simp [rlookup, hk, ih]

/-- A successful lookup means the pair is in the list. -/
theorem rlookup_some_mem {a : String} {v : β} : ∀ {r : List (String × β)},
    rlookup a r = some v → (a, v) ∈ r := by
  intro r
  induction r with
  | nil => intro h; simp [rlookup] at h
  | cons p ps ih =>
    intro h
    rcases p with ⟨k, w⟩
    by_cases hk : k = a
    · subst hk
      simp [rlookup] at h
      subst h
      exact List.mem_cons_self _ _
    · rw [rlookup, if_neg hk] at h
      exact List.mem_cons_of_mem _ (ih h)

/-- A list with no pair keyed `a` looks up to nothing. -/
theorem rlookup_none_of_keys {a : String} : ∀ {r : List (String × β)},
    (∀ p ∈ r, p.1 ≠ a) → rlookup a r = none := by
  intro r
  induction r with
  | nil => intro _; rfl
  | cons p ps ih =>
    intro h
    rcases p with ⟨k, w⟩
    have hk : k ≠ a := h (k, w) (List.mem_cons_self _ _)
    rw [rlookup, if_neg hk]
    exact ih (fun q hq => h q (List.mem_cons_of_mem _ hq))

/-- Keys that exist in an association list look up to a value. -/
theorem rlookup_isSome_of_mem_keys {k : String} : ∀ {m : List (String × β)},
    k ∈ m.map Prod.fst → ∃ v, rlookup k m = some v := by
  intro m
  induction m with
  | nil => intro hk; simp at hk
  | cons p ps ih =>
    intro hk
    rcases p with ⟨a, b⟩
    by_cases hak : a = k
    · exact ⟨b, by rw [rlookup, if_pos hak]⟩
    · simp at hk
      rcases hk with hk | hk
      · exact absurd hk.symm hak
      · rcases ih (by simpa using hk) with ⟨v, hv⟩
        exact ⟨v, by rw [rlookup, if_neg hak]; exact hv⟩

/-- Lookup through a key-based filter. -/
theorem rlookup_filter_key (q : String → Bool) (a : String) :
    ∀ (r : List (String × β)),
      rlookup a (r.filter (fun p => q p.1)) = if q a then rlookup a r else none := by
  intro r
  induction r with
  | nil => simp [rlookup]
  | cons p ps ih =>
    rcases p with ⟨k, v⟩
    by_cases hk : k = a
    · subst hk
      by_cases hq : q k
      · simp [List.filter_cons, hq, rlookup]
      · simp [List.filter_cons, hq, rlookup, ih]
    · by_cases hq : q k
      · simp [List.filter_cons, hq, rlookup, hk, ih]
      · simp [List.filter_cons, hq, rlookup, hk, ih]

/-- Renaming a mapped key lands among the mapping values. -/
theorem renameKey_mem_values {m : List (String × String)} {k : String}
    (hk : k ∈ m.map Prod.fst) : renameKey m k ∈ m.map Prod.snd := by
  rcases rlookup_isSome_of_mem_keys hk with ⟨v, hv⟩
  rw [renameKey, hv]
  exact List.mem_map.mpr ⟨(k, v), rlookup_some_mem hv, rfl⟩

end RowLemmas
section StepLemmas

/-- Membership and `contains` agree. -/
theorem contains_of_mem {α : Type _} [BEq α] [LawfulBEq α] {a : α} {l : List α}
    (h : a ∈ l) : l.contains a = true := by simpa using h

/-- A positive `contains` gives membership. -/
theorem mem_of_contains {α : Type _} [BEq α] [LawfulBEq α] {a : α} {l : List α}
    (h : l.contains a = true) : a ∈ l := by simpa using h

/-- A cell step keeps the column names of a row unchanged. -/
theorem cellStep_keys {f : String → Cell → Option Cell} :
    ∀ {r r2 : Row}, cellStep f r = some r2 → r2.map Prod.fst = r.map Prod.fst := by
  intro r
  induction r with
  | nil =>
    intro r2 h
    simp [cellStep, mapMO] at h
    subst h
    rfl
  | cons p ps ih =>
    intro r2 h
    simp only [cellStep, mapMO] at h
    cases hfa : f p.1 p.2 with
    | none => rw [hfa] at h; simp at h
    | some c =>
      rw [hfa] at h
      cases hrest : mapMO (fun q => (f q.1 q.2).map (fun c => (q.1, c))) ps with
      | none => rw [hrest] at h; simp at h
      | some ps2 =>
        rw [hrest] at h
        simp at h
        subst h
        simp [ih hrest]

/-- A cell step transforms the looked-up cell of a column by `f`. -/
theorem cellStep_rlookup_some {f : String → Cell → Option Cell} {a : String} :
    ∀ {r r2 : Row} {v : Cell}, cellStep f r = some r2 → rlookup a r = some v →
      ∃ w, f a v = some w ∧ rlookup a r2 = some w := by
  intro r
  induction r with
  | nil => intro r2 v _ hv; simp [rlookup] at hv
  | cons p ps ih =>
    intro r2 v h hv
    rcases p with ⟨k, u⟩
    simp only [cellStep, mapMO] at h
    cases hfa : f k u with
    | none => rw [hfa] at h; simp at h
    | some c =>
      rw [hfa] at h
      cases hrest : mapMO (fun q => (f q.1 q.2).map (fun c => (q.1, c))) ps with
      | none => rw [hrest] at h; simp at h
      | some ps2 =>
        rw [hrest] at h
        simp at h
        subst h
        by_cases hk : k = a
        · subst hk
          simp only [rlookup, if_pos] at hv
          simp at hv
          subst hv
          refine ⟨c, hfa, ?_⟩
          simp [rlookup]
        · simp only [rlookup] at hv
          rw [if_neg hk] at hv
          rcases ih hrest hv with ⟨w, hw1, hw2⟩
          refine ⟨w, hw1, ?_⟩
          simp only [rlookup]
          rw [if_neg hk]
          exact hw2

/-- A cell step fails when `f` fails on a present cell. -/
theorem cellStep_none {f : String → Cell → Option Cell} {a : String} {r : Row}
    {v : Cell} (hv : rlookup a r = some v) (hf : f a v = none) :
    cellStep f r = none := by
  apply mapMO_none_of_mem (rlookup_some_mem hv)
  simp [hf]

/-- A cell step that is the identity on column `a` keeps its lookup. -/
theorem cellStep_rlookup_id {f : String → Cell → Option Cell} {a : String}
    {r r2 : Row} (h : cellStep f r = some r2) (hid : ∀ v, f a v = some v) :
    rlookup a r2 = rlookup a r := by
  cases hv : rlookup a r with
  | some v =>
    rcases cellStep_rlookup_some h hv with ⟨w, hw1, hw2⟩
    rw [hid v] at hw1
    rw [hw2]
    exact congrArg some (Option.some.inj hw1).symm
  | none =>
    have hkeys := cellStep_keys h
    apply rlookup_none_of_keys
    intro p hp hpa
    have hmem : a ∈ r2.map Prod.fst := hpa ▸ List.mem_map.mpr ⟨p, hp, rfl⟩
    rw [hkeys] at hmem
    rcases rlookup_isSome_of_mem_keys hmem with ⟨w, hw⟩
    rw [hv] at hw
    exact Option.noConfusion hw

/-- Unfolding of a successful row synthesis. -/
theorem synthRow_spec {r r2 : Row} (h : synthRow r = some r2) :
    ∃ n sc, rlookup "Amount" r = some (Cell.num n sc) ∧
      r2 = r ++ [("TransactionType", Cell.str (if 0 ≤ n then "CREDIT" else "DEBIT"))] := by
  unfold synthRow at h
  cases hv : rlookup "Amount" r with
  | none => rw [hv] at h; exact Option.noConfusion h
  | some c =>
    rw [hv] at h
    cases c with
    | str s => exact Option.noConfusion h
    | date n => exact Option.noConfusion h
    | num n sc => exact ⟨n, sc, rfl, (Option.some.inj h).symm⟩

/-- Keys of the Discover projection come from the projected column list. -/
theorem keys_projectRowDiscover {cols : List String} {r : Row} :
    ∀ p ∈ projectRowDiscover cols r, p.1 ∈ cols := by
  intro p hp
  rcases List.mem_filterMap.mp hp with ⟨c, hc, hmap⟩
  cases hv : rlookup c r with
  | none => rw [hv] at hmap; exact Option.noConfusion hmap
  | some v =>
    rw [hv] at hmap
    simp at hmap
    subst hmap
    exact hc

/-- Lookup through the Discover projection, for projected columns without
duplicates. -/
theorem rlookup_projectRowDiscover {a : String} :
    ∀ {cols : List String}, cols.Nodup → a ∈ cols → ∀ (r : Row),
      rlookup a (projectRowDiscover cols r) = rlookup a r := by
  intro cols
  induction cols with
  | nil => intro _ ha; simp at ha
  | cons c cs ih =>
    intro hnd ha r
    rcases List.nodup_cons.mp hnd with ⟨hc, hnd2⟩
    by_cases hac : c = a
    · subst hac
      cases hv : rlookup c r with
      | some v =>
        simp only [projectRowDiscover, List.filterMap_cons, hv, Option.map_some]
        simp [rlookup]
      | none =>
        simp only [projectRowDiscover, List.filterMap_cons, hv]
        apply rlookup_none_of_keys
        intro p hp hpa
        exact hc (hpa ▸ keys_projectRowDiscover p hp)
    · rcases List.mem_cons.mp ha with h | h
      · exact absurd h.symm hac
      · cases hv : rlookup c r with
        | some v =>
          simp only [projectRowDiscover, List.filterMap_cons, hv, Option.map_some]
          simp only [rlookup]
          rw [if_neg hac]
          exact ih hnd2 h r
        | none =>
          simp only [projectRowDiscover, List.filterMap_cons, hv]
          exact ih hnd2 h r

/-- Keys of a renamed row are the renamed keys. -/
theorem keys_renameRow (m : List (String × String)) (r : Row) :
    (renameRow m r).map Prod.fst = (r.map Prod.fst).map (renameKey m) := by
  induction r with
  | nil => rfl
  | cons p ps ih => simp [renameRow, ih]

/-- Lookup through a rename, at a target name reached only from `a` among
the row keys. -/
theorem rlookup_renameRow {m : List (String × String)} {a b : String}
    (hab : renameKey m a = b) :
    ∀ {r : Row}, (∀ p ∈ r, renameKey m p.1 = b → p.1 = a) →
      rlookup b (renameRow m r) = rlookup a r := by
  intro r
  induction r with
  | nil => intro _; rfl
  | cons p ps ih =>
    intro hinj
    rcases p with ⟨k, v⟩
    by_cases hk : k = a
    · subst hk
      simp [renameRow, rlookup, hab]
    · have hkb : renameKey m k ≠ b := fun hc =>
        hk (hinj (k, v) (List.mem_cons_self _ _) hc)
      simp only [renameRow, List.map_cons]
      simp only [rlookup]
      rw [if_neg hkb, if_neg hk]
      exact ih (fun q hq => hinj q (List.mem_cons_of_mem _ hq))

end StepLemmas
section ParserLemmas

/-- Structure of a successful Chase parse: non-empty recognized column set
and three successful column phases. -/
theorem parse_chase_phases {hdr : List String} {rows : List (List String)}
    {out : List Row} (h : parse_chase_csv hdr rows = some out) :
    (chaseExisting hdr).isEmpty = false ∧
    ∃ d1 d2,
      phase ((chaseCols hdr).contains "Date") (cellStep (dateF "Date"))
        (rows.map (chasePre hdr)) = some d1 ∧
      phase ((chaseCols hdr).contains "PostDate") (cellStep (dateF "PostDate")) d1 = some d2 ∧
      phase ((chaseCols hdr).contains "Amount") (cellStep (amtF false)) d2 = some out := by
  unfold parse_chase_csv at h
  by_cases he : (chaseExisting hdr).isEmpty
  · rw [if_pos he] at h
    exact Option.noConfusion h
  · rw [if_neg he] at h
    refine ⟨by simpa using he, ?_⟩
    cases h1 : phase ((chaseCols hdr).contains "Date") (cellStep (dateF "Date"))
        (rows.map (chasePre hdr)) with
    | none => rw [h1] at h; exact Option.noConfusion h
    | some d1 =>
      rw [h1] at h
      dsimp only at h
      cases h2 : phase ((chaseCols hdr).contains "PostDate")
          (cellStep (dateF "PostDate")) d1 with
      | none => rw [h2] at h; exact Option.noConfusion h
      | some d2 =>
        rw [h2] at h
        dsimp only at h
        exact ⟨d1, d2, rfl, h2, h⟩

/-- The renamed Discover columns never contain `TransactionType`, so the
synthesis branch always runs. -/
theorem discoverCols_no_tt (hdr : List String) :
    (discoverCols hdr).contains "TransactionType" = false := by
  cases hc : (discoverCols hdr).contains "TransactionType"
  · rfl
  · exfalso
    rcases List.mem_map.mp (mem_of_contains hc) with ⟨k, hk, hkeq⟩
    have hk2 : k ∈ discoverMapping.map Prod.fst := (List.mem_filter.mp hk).1
    have hval := renameKey_mem_values hk2
    rw [hkeq] at hval
    revert hval
    decide

/-- Structure of a successful Discover parse: three successful column
phases, a present `Amount` column, and the synthesis pass. -/
theorem parse_discover_phases {hdr : List String} {rows : List (List String)}
    {out : List Row} (h : parse_discover_csv hdr rows = some out) :
    ∃ d1 d2 d3,
      phase ((discoverCols hdr).contains "Date") (cellStep (dateF "Date"))
        (rows.map (discoverPre hdr)) = some d1 ∧
      phase ((discoverCols hdr).contains "PostDate") (cellStep (dateF "PostDate")) d1 = some d2 ∧
      phase ((discoverCols hdr).contains "Amount") (cellStep (amtF true)) d2 = some d3 ∧
      (discoverCols hdr).contains "Amount" = true ∧
      mapMO synthRow d3 = some out := by
  unfold parse_discover_csv at h
  cases h1 : phase ((discoverCols hdr).contains "Date") (cellStep (dateF "Date"))
      (rows.map (discoverPre hdr)) with
  | none => rw [h1] at h; exact Option.noConfusion h
  | some d1 =>
    rw [h1] at h
    dsimp only at h
    cases h2 : phase ((discoverCols hdr).contains "PostDate")
        (cellStep (dateF "PostDate")) d1 with
    | none => rw [h2] at h; exact Option.noConfusion h
    | some d2 =>
      rw [h2] at h
      dsimp only at h
      cases h3 : phase ((discoverCols hdr).contains "Amount")
          (cellStep (amtF true)) d2 with
      | none => rw [h3] at h; exact Option.noConfusion h
      | some d3 =>
        rw [h3] at h
        dsimp only at h
        rw [discoverCols_no_tt hdr] at h
        cases hA : (discoverCols hdr).contains "Amount" with
        | false => rw [hA] at h; simp at h
        | true =>
          rw [hA] at h h3
          simp at h
          exact ⟨d1, d2, d3, rfl, h2, h3, rfl, h⟩

/-- Keys preserved or unchanged by one phase, backwards. -/
theorem phase_keys_back {b : Bool} {g : String → Cell → Option Cell} {r r2 : Row}
    (hc : (b = true ∧ cellStep g r = some r2) ∨ (b = false ∧ r = r2)) :
    r2.map Prod.fst = r.map Prod.fst := by
  rcases hc with ⟨-, hcs⟩ | ⟨-, h⟩
  · exact cellStep_keys hcs
  · rw [h]

/-- Every record of a successful Chase parse has all its column names among
the values of the selected mapping. -/
theorem chase_out_keys {hdr : List String} {rows : List (List String)}
    {out : List Row} (h : parse_chase_csv hdr rows = some out)
    {r : Row} (hr : r ∈ out) :
    ∀ p ∈ r, p.1 ∈ (chaseMappingOf hdr).map Prod.snd := by
  rcases parse_chase_phases h with ⟨-, d1, d2, h1, h2, h3⟩
  rcases phase_mem_rev h3 hr with ⟨r2, hr2, hc3⟩
  rcases phase_mem_rev h2 hr2 with ⟨r1, hr1, hc2⟩
  rcases phase_mem_rev h1 hr1 with ⟨r0, hr0, hc1⟩
  rcases List.mem_map.mp hr0 with ⟨cs, -, rfl⟩
  intro p hp
  have hpk : p.1 ∈ r.map Prod.fst := List.mem_map.mpr ⟨p, hp, rfl⟩
  rw [phase_keys_back hc3, phase_keys_back hc2, phase_keys_back hc1] at hpk
  rw [chasePre, keys_renameRow] at hpk
  rcases List.mem_map.mp hpk with ⟨k, hk, hkeq⟩
  rw [← hkeq]
  apply renameKey_mem_values
  rcases List.mem_map.mp hk with ⟨q, hq, rfl⟩
  have hqf := List.mem_filter.mp hq
  have hqex : q.1 ∈ chaseExisting hdr := mem_of_contains hqf.2
  exact mem_of_contains (List.mem_filter.mp hqex).2

/-- Every record of a successful Discover parse is a projected, renamed,
converted row extended by the synthesized `TransactionType`, and its other
column names all lie among the Discover mapping values. -/
theorem discover_out_row {hdr : List String} {rows : List (List String)}
    {out : List Row} (h : parse_discover_csv hdr rows = some out)
    {r : Row} (hr : r ∈ out) :
    ∃ r3 n sc, rlookup "Amount" r3 = some (Cell.num n sc) ∧
      r = r3 ++ [("TransactionType", Cell.str (if 0 ≤ n then "CREDIT" else "DEBIT"))] ∧
      (∀ p ∈ r3, p.1 ∈ discoverMapping.map Prod.snd) := by
  rcases parse_discover_phases h with ⟨d1, d2, d3, h1, h2, h3, -, hsyn⟩
  rcases mapMO_mem_rev hsyn hr with ⟨r3, hr3, hs⟩
  rcases synthRow_spec hs with ⟨n, sc, hamt, hr2eq⟩
  refine ⟨r3, n, sc, hamt, hr2eq, ?_⟩
  rcases phase_mem_rev h3 hr3 with ⟨r2, hr2, hc3⟩
  rcases phase_mem_rev h2 hr2 with ⟨r1, hr1, hc2⟩
  rcases phase_mem_rev h1 hr1 with ⟨r0, hr0, hc1⟩
  rcases List.mem_map.mp hr0 with ⟨cs, -, rfl⟩
  intro p hp
  have hpk : p.1 ∈ r3.map Prod.fst := List.mem_map.mpr ⟨p, hp, rfl⟩
  rw [phase_keys_back hc3, phase_keys_back hc2, phase_keys_back hc1] at hpk
  rw [discoverPre, keys_renameRow] at hpk
  rcases List.mem_map.mp hpk with ⟨k, hk, hkeq⟩
  rw [← hkeq]
  apply renameKey_mem_values
  rcases List.mem_map.mp hk with ⟨q, hq, rfl⟩
  exact (List.mem_filter.mp (keys_projectRowDiscover q hq)).1

end ParserLemmas
section ScanHelpers

/-- When some segment passes either account-number test, `scanParts` returns
the value of the first such segment, preferring the pure-four-digit form. -/
theorem scanParts_find_some :
    ∀ (parts : List (List Char)) (p : List Char),
      parts.find? (fun q => isPureFourDigits q || decide (4 ≤ (digitsOf q).length)) = some p →
      scanParts parts = some (if isPureFourDigits p then p else lastFour (digitsOf p)) := by
  intro parts
  induction parts with
  | nil => intro p h; simp at h
  | cons q rest ih =>
    intro p h
    rw [List.find?_cons] at h
    by_cases hpure : isPureFourDigits q = true
    · have hq : (isPureFourDigits q || decide (4 ≤ (digitsOf q).length)) = true := by
        simp [hpure]
      rw [hq] at h
      simp at h
      subst h
      simp only [scanParts]
      rw [if_pos hpure, if_pos hpure]
    · by_cases hd : 4 ≤ (digitsOf q).length
      · have hq : (isPureFourDigits q || decide (4 ≤ (digitsOf q).length)) = true := by
          simp [hd]
        rw [hq] at h
        simp at h
        subst h
        simp only [scanParts]
        rw [if_neg hpure, if_pos hd, if_neg hpure]
      · have hq : (isPureFourDigits q || decide (4 ≤ (digitsOf q).length)) = false := by
          simp [hd]
          simpa using hpure
        rw [hq] at h
        simp only [scanParts]
        rw [if_neg hpure, if_neg hd]
        exact ih p h

/-- When no segment passes either account-number test, `scanParts` fails. -/
theorem scanParts_find_none :
    ∀ (parts : List (List Char)),
      parts.find? (fun q => isPureFourDigits q || decide (4 ≤ (digitsOf q).length)) = none →
      scanParts parts = none := by
  intro parts
  induction parts with
  | nil => intro _; rfl
  | cons q rest ih =>
    intro h
    rw [List.find?_cons] at h
    by_cases hq : (isPureFourDigits q || decide (4 ≤ (digitsOf q).length)) = true
    · rw [hq] at h; simp at h
    · have hqf : (isPureFourDigits q || decide (4 ≤ (digitsOf q).length)) = false := by
        simpa using hq
      rw [hqf] at h
      have hpure : ¬ isPureFourDigits q = true := by
        intro hc; rw [hc] at hqf; simp at hqf
      have hd : ¬ 4 ≤ (digitsOf q).length := by
        intro hc
        rw [Bool.or_eq_false_iff] at hqf
        exact absurd hc (by simpa using hqf.2)
      simp only [scanParts]
      rw [if_neg hpure, if_neg hd]
      exact ih h

end ScanHelpers

/-- C8 (amended): the schema detector is a total, pure classification that
returns a value for every input, including an empty header row; with empty
headers the account type is unknown for Chase, fixed `credit` for Discover,
and `(unknown, unknown)` exactly when the filename stem matches no
institution token. -/
theorem C8_detector_total (stem : String) :
    (containsSub (chars "chase") (lowerChars (chars stem)) = false →
     containsSub (chars "discover") (lowerChars (chars stem)) = false →
     identify_file_type stem [] = (none, none)) ∧
    (containsSub (chars "chase") (lowerChars (chars stem)) = true →
     identify_file_type stem [] = (some "chase", none)) ∧
    (containsSub (chars "chase") (lowerChars (chars stem)) = false →
     containsSub (chars "discover") (lowerChars (chars stem)) = true →
     identify_file_type stem [] = (some "discover", some "credit")) := by
  have h0 : headersJoined [] = [] := rfl
  have hdet : containsSub (chars "details") ([] : List Char) = false := by decide
  have htd : containsSub (chars "transaction date") ([] : List Char) = false := by decide
  refine ⟨?_, ?_, ?_⟩
  · intro h1 h2
    simp [identify_file_type, h0, h1, h2]
  · intro h1
    simp [identify_file_type, h0, h1, hdet, htd]
  · intro h1 h2
    simp [identify_file_type, h0, h1, h2]

/-- C8 witness: a filename matching no institution with an empty header row
classifies as fully unknown. -/
theorem C8_witness : identify_file_type "statement" [] = (none, none) :=
  (C8_detector_total "statement").1 (by decide) (by decide)

/-- C8 counterexample: for a Chase-named file an empty (malformed) header
row does not yield `(unknown, unknown)`; the institution is still read off
the filename. -/
theorem C8_counterexample :
    identify_file_type "chase" [] = (some "chase", none) ∧
    (some "chase", (none : Option String)) ≠ ((none : Option String), (none : Option String)) := by
  decide

/-- C4 (amended): the detector maps a Chase file with "details" and
"balance" header content to checking, otherwise with "transaction date" and
"category" content to credit, and Discover files to credit regardless of
headers; the descriptor round-trip holds for the Chase credit and Discover
credit descriptors, but not for Chase checking, whose recognized fields do
not include the `Balance` column the detector requires. -/
theorem C4_detector_rules :
    (∀ stem headers,
       containsSub (chars "chase") (lowerChars (chars stem)) = true →
       containsSub (chars "details") (headersJoined headers) = true →
       containsSub (chars "balance") (headersJoined headers) = true →
       identify_file_type stem headers = (some "chase", some "checking")) ∧
    (∀ stem headers,
       containsSub (chars "chase") (lowerChars (chars stem)) = true →
       (containsSub (chars "details") (headersJoined headers) = false ∨
        containsSub (chars "balance") (headersJoined headers) = false) →
       containsSub (chars "transaction date") (headersJoined headers) = true →
       containsSub (chars "category") (headersJoined headers) = true →
       identify_file_type stem headers = (some "chase", some "credit")) ∧
    (∀ stem headers,
       containsSub (chars "chase") (lowerChars (chars stem)) = false →
       containsSub (chars "discover") (lowerChars (chars stem)) = true →
       identify_file_type stem headers = (some "discover", some "credit")) ∧
    identify_file_type "chase" (chaseCreditMapping.map Prod.fst) =
      (some "chase", some "credit") ∧
    identify_file_type "discover" (discoverMapping.map Prod.fst) =
      (some "discover", some "credit") := by
  refine ⟨?_, ?_, ?_, by decide, by decide⟩
  · intro stem headers h1 h2 h3
    simp [identify_file_type, h1, h2, h3]
  · intro stem headers h1 h2 h3 h4
    rcases h2 with h2 | h2 <;> simp [identify_file_type, h1, h2, h3, h4]
  · intro stem headers h1 h2
    simp [identify_file_type, h1, h2]

/-- C4 witness: a Chase file whose headers contain details and balance
fields detects as a checking account. -/
theorem C4_witness :
    identify_file_type "Chase_1234" ["Details", "Balance"] = (some "chase", some "checking") :=
  (C4_detector_rules).1 "Chase_1234" ["Details", "Balance"] (by decide) (by decide) (by decide)

/-- C4 counterexample: a header row holding exactly the recognized fields of
the Chase checking descriptor (which omit `Balance`) is detected with an
unknown account type, so the descriptor round-trip fails for that pair. -/
theorem C4_counterexample :
    identify_file_type "chase" (chaseCheckingMapping.map Prod.fst) = (some "chase", none) ∧
    (some "chase", (none : Option String)) ≠ (some "chase", some "checking") := by
  decide

/-- C5 (amended): account-number extraction scans underscore segments once,
left to right, testing each segment first for being purely four digits and
then for containing at least four digits (taking the last four); the first
segment passing either test decides, so a later purely-four-digit segment
loses to an earlier segment with a long digit run.  Stems without an
underscore use the digit run of the whole stem.  The specification examples
`"Chase_1234"` and `"discover5678_old"` behave as stated. -/
theorem C5_scan_rules :
    extract_account_number "Chase_1234" = some "1234" ∧
    extract_account_number "discover5678_old" = some "5678" ∧
    (∀ parts p,
       parts.find? (fun q => isPureFourDigits q || decide (4 ≤ (digitsOf q).length)) = some p →
       scanParts parts = some (if isPureFourDigits p then p else lastFour (digitsOf p))) ∧
    (∀ parts,
       parts.find? (fun q => isPureFourDigits q || decide (4 ≤ (digitsOf q).length)) = none →
       scanParts parts = none) ∧
    (∀ stem, (chars stem).contains '_' = true →
       extract_account_number stem = (scanParts (splitOnChar '_' (chars stem))).map String.mk) ∧
    (∀ stem, (chars stem).contains '_' = false →
       extract_account_number stem =
         if 4 ≤ (digitsOf (chars stem)).length then
           some (String.mk (lastFour (digitsOf (chars stem))))
         else none) := by
  refine ⟨by decide, by decide, scanParts_find_some, scanParts_find_none, ?_, ?_⟩
  · intro stem hu
    rw [extract_account_number, if_pos hu]
  · intro stem hu
    have hn : ¬ (chars stem).contains '_' = true := by rw [hu]; decide
    rw [extract_account_number, if_neg hn]

/-- C5 witness: the single left-to-right scan applied to the segments of
`"Chase_1234"`. -/
theorem C5_witness :
    scanParts [chars "Chase", chars "1234"] =
      some (if isPureFourDigits (chars "1234") then chars "1234"
            else lastFour (digitsOf (chars "1234"))) :=
  C5_scan_rules.2.2.1 [chars "Chase", chars "1234"] (chars "1234") (by decide)

/-- C5 counterexample: on stem `"x12345_6789"` the source takes the last
four digits of the first segment (`"2345"`), while the specification order
of rules picks the purely-four-digit later segment (`"6789"`). -/
theorem C5_counterexample :
    extract_account_number "x12345_6789" = some "2345" ∧
    (specSegmentNumber (splitOnChar '_' (chars "x12345_6789"))).map String.mk = some "6789" ∧
    ("2345" : String) ≠ "6789" := by
  decide
section EmitLemmas

/-- Single-binding lookup at a different key. -/
theorem rlookup_single_ne {a k : String} {v : Cell} (h : k ≠ a) :
    rlookup a [(k, v)] = none := by
  simp [rlookup, h]

/-- Every emitted Chase record is a parsed record extended by the account
id and the optional account type. -/
theorem emit_chase_mem {stem : String} {hdr : List String}
    {rows : List (List String)} {r : Row} (hr : r ∈ emit_chase stem hdr rows) :
    ∃ rs r0, parse_chase_csv hdr rows = some rs ∧ r0 ∈ rs ∧
      r = (r0 ++ [("Account", Cell.str (chase_account_id (extract_account_number stem)
              (chase_detected_type stem hdr)))]) ++
        (match chase_detected_type stem hdr with
         | some t => [("AccountType", Cell.str t)]
         | none => []) := by
  unfold emit_chase at hr
  cases hp : parse_chase_csv hdr rows with
  | none => rw [hp] at hr; simp at hr
  | some rs =>
    rw [hp] at hr
    dsimp only at hr
    by_cases hE : rs.isEmpty
    · rw [if_pos hE] at hr; simp at hr
    · rw [if_neg hE] at hr
      rcases List.mem_map.mp hr with ⟨r0, hr0, hre⟩
      exact ⟨rs, r0, rfl, hr0, hre.symm⟩

/-- Every emitted Discover record is a parsed record extended by the
account id and the constant credit account type. -/
theorem emit_discover_mem {stem : String} {hdr : List String}
    {rows : List (List String)} {r : Row} (hr : r ∈ emit_discover stem hdr rows) :
    ∃ rs r0, parse_discover_csv hdr rows = some rs ∧ r0 ∈ rs ∧
      r = (r0 ++ [("Account", Cell.str (discover_account_id (extract_account_number stem)))]) ++
        [("AccountType", Cell.str "credit")] := by
  unfold emit_discover at hr
  cases hp : parse_discover_csv hdr rows with
  | none => rw [hp] at hr; simp at hr
  | some rs =>
    rw [hp] at hr
    dsimp only at hr
    by_cases hE : rs.isEmpty
    · rw [if_pos hE] at hr; simp at hr
    · rw [if_neg hE] at hr
      rcases List.mem_map.mp hr with ⟨r0, hr0, hre⟩
      exact ⟨rs, r0, rfl, hr0, hre.symm⟩

/-- Lookup in an emitted record: the parsed part has no binding for `a`, so
the lookup passes to the appended columns. -/
theorem rlookup_emit {r0 : Row} {accId : String} {rest : Row} {a : String}
    (h0 : rlookup a r0 = none) :
    rlookup a ((r0 ++ [("Account", Cell.str accId)]) ++ rest) =
      if "Account" = a then some (Cell.str accId) else rlookup a rest := by
  by_cases ha : "Account" = a
  · rw [rlookup_append, rlookup_append, h0]
    simp [rlookup, ha]
  · rw [rlookup_append, rlookup_append, h0]
    simp [rlookup, ha]

/-- The mapping values of either Chase mapping avoid the appended column
names and `Date`-freeness for the checking mapping is recorded separately. -/
theorem chase_values_ne {hdr : List String} {a : String}
    (ha1 : a ∉ chaseCheckingMapping.map Prod.snd)
    (ha2 : a ∉ chaseCreditMapping.map Prod.snd) :
    ∀ x ∈ (chaseMappingOf hdr).map Prod.snd, x ≠ a := by
  intro x hx
  rw [chaseMappingOf] at hx
  by_cases hc : chase_is_checking hdr
  · rw [if_pos hc] at hx
    intro he
    exact ha1 (he ▸ hx)
  · rw [if_neg hc] at hx
    intro he
    exact ha2 (he ▸ hx)

/-- A parsed Chase record has no binding for a name outside the mapping
values. -/
theorem chase_row_rlookup_none {hdr : List String} {rows : List (List String)}
    {rs : List Row} (hp : parse_chase_csv hdr rows = some rs)
    {r0 : Row} (hr0 : r0 ∈ rs) {a : String}
    (ha1 : a ∉ chaseCheckingMapping.map Prod.snd)
    (ha2 : a ∉ chaseCreditMapping.map Prod.snd) :
    rlookup a r0 = none :=
  rlookup_none_of_keys
    (fun p hp2 => chase_values_ne ha1 ha2 p.1 (chase_out_keys hp hr0 p hp2))

/-- A parsed Discover record has no binding for a name outside the mapping
values and distinct from the synthesized `TransactionType`. -/
theorem discover_row_rlookup_none {hdr : List String} {rows : List (List String)}
    {rs : List Row} (hp : parse_discover_csv hdr rows = some rs)
    {r0 : Row} (hr0 : r0 ∈ rs) {a : String}
    (ha : a ∉ discoverMapping.map Prod.snd) (hatt : a ≠ "TransactionType") :
    rlookup a r0 = none := by
  rcases discover_out_row hp hr0 with ⟨r3, n, sc, -, hre, hkeys⟩
  subst hre
  rw [rlookup_append]
  have h3 : rlookup a r3 = none :=
    rlookup_none_of_keys (fun p hp2 hpa => ha (hpa ▸ hkeys p hp2))
  rw [h3]
  exact rlookup_single_ne (fun hc => hatt hc.symm)

/-- A non-empty literal followed by anything is a non-empty string. -/
theorem str_append_ne_empty (s t : String) (hs : s.data ≠ []) : s ++ t ≠ "" := by
  intro h
  have h2 := congrArg String.data h
  rw [String.data_append] at h2
  exact hs (List.append_eq_nil.mp (by simpa using h2)).1

end EmitLemmas

/-- C9 (confirmed): when a file's headers contain none of the selected
descriptor's recognized names, both parsers signal failure (return `None`)
and the file contributes no records, rather than silently emitting an
empty or garbage record set. -/
theorem C9_schema_mismatch :
    (∀ hdr rows, (∀ k ∈ (chaseMappingOf hdr).map Prod.fst, k ∉ hdr) →
       parse_chase_csv hdr rows = none ∧ ∀ stem, emit_chase stem hdr rows = []) ∧
    (∀ hdr rows, (∀ k ∈ discoverMapping.map Prod.fst, k ∉ hdr) →
       parse_discover_csv hdr rows = none ∧ ∀ stem, emit_discover stem hdr rows = []) := by
  constructor
  · intro hdr rows hk
    have hex : chaseExisting hdr = [] := by
      rw [chaseExisting]
      apply List.filter_eq_nil_iff.mpr
      intro a ha
      intro hc
      exact hk a (mem_of_contains hc) ha
    have hp : parse_chase_csv hdr rows = none := by
      unfold parse_chase_csv
      rw [if_pos (by rw [hex]; rfl)]
    refine ⟨hp, fun stem => ?_⟩
    unfold emit_chase
    rw [hp]
  · intro hdr rows hk
    have hcols0 : discoverCols0 hdr = [] := by
      rw [discoverCols0]
      apply List.filter_eq_nil_iff.mpr
      intro a ha
      intro hc
      exact hk a ha (mem_of_contains hc)
    have hcols : discoverCols hdr = [] := by rw [discoverCols, hcols0]; rfl
    have hp : parse_discover_csv hdr rows = none := by
      unfold parse_discover_csv
      rw [hcols]
      simp [phase]
    refine ⟨hp, fun stem => ?_⟩
    unfold emit_discover
    rw [hp]

/-- C9 witness: a header row with no recognized names fails both parsers. -/
theorem C9_witness :
    parse_chase_csv ["Foo"] [["x"]] = none ∧ parse_discover_csv ["Foo"] [["x"]] = none :=
  ⟨(C9_schema_mismatch.1 ["Foo"] [["x"]] (by decide)).1,
   (C9_schema_mismatch.2 ["Foo"] [["x"]] (by decide)).1⟩

/-- C10 (confirmed): a Chase file whose account type cannot be detected from
headers or filename keywords emits records with no `AccountType` binding at
all, while every emitted Discover record has `AccountType` equal to
`credit`. -/
theorem C10_account_type_column :
    (∀ stem hdr rows, chase_detected_type stem hdr = none →
       ∀ r ∈ emit_chase stem hdr rows, rlookup "AccountType" r = none) ∧
    (∀ stem hdr rows r, r ∈ emit_discover stem hdr rows →
       rlookup "AccountType" r = some (Cell.str "credit")) := by
  constructor
  · intro stem hdr rows hty r hr
    rcases emit_chase_mem hr with ⟨rs, r0, hp, hr0, hre⟩
    subst hre
    rw [hty]
    have h0 : rlookup "AccountType" r0 = none :=
      chase_row_rlookup_none hp hr0 (by decide) (by decide)
    rw [rlookup_emit h0]
    rw [if_neg (by decide)]
    rfl
  · intro stem hdr rows r hr
    rcases emit_discover_mem hr with ⟨rs, r0, hp, hr0, hre⟩
    subst hre
    have h0 : rlookup "AccountType" r0 = none :=
      discover_row_rlookup_none hp hr0 (by decide) (by decide)
    rw [rlookup_emit h0]
    rw [if_neg (by decide)]
    simp [rlookup]

/-- C10 witness: a Chase credit-format file with no type keywords in a
stemless name is undetectable, and its emitted record carries no
`AccountType`; a Discover record carries `AccountType = credit`. -/
theorem C10_witness :
    (∀ r ∈ emit_chase "chase" ["Memo"] [["m"]], rlookup "AccountType" r = none) ∧
    (∀ r ∈ emit_discover "discover"
        ["Trans. Date", "Post Date", "Description", "Category", "Amount"]
        [["06/01/2024", "06/02/2024", "A", "Food", "5.00"]],
       rlookup "AccountType" r = some (Cell.str "credit")) :=
  ⟨C10_account_type_column.1 "chase" ["Memo"] [["m"]] (by decide),
   fun r hr => C10_account_type_column.2 "discover" _ _ r hr⟩
/-- C2 (amended): every emitted record's `Account` value is the composed
account id and is non-empty; Chase composes
`chase_{type}{number}` / `chase{number}` / `chase_{type}` / `chase_unknown`,
while Discover ignores the account type entirely and emits
`discover{number}` or the bare `discover`, never a `discover_unknown`
sentinel or a type-bearing id. -/
theorem C2_account_id_nonempty :
    (∀ stem hdr rows r, r ∈ emit_chase stem hdr rows →
       rlookup "Account" r =
         some (Cell.str (chase_account_id (extract_account_number stem)
           (chase_detected_type stem hdr)))) ∧
    (∀ num ty, chase_account_id num ty ≠ "") ∧
    chase_account_id none none = "chase_unknown" ∧
    (∀ stem hdr rows r, r ∈ emit_discover stem hdr rows →
       rlookup "Account" r =
         some (Cell.str (discover_account_id (extract_account_number stem)))) ∧
    (∀ num, discover_account_id num ≠ "") := by
  refine ⟨?_, ?_, by decide, ?_, ?_⟩
  · intro stem hdr rows r hr
    rcases emit_chase_mem hr with ⟨rs, r0, hp, hr0, hre⟩
    subst hre
    have h0 : rlookup "Account" r0 = none :=
      chase_row_rlookup_none hp hr0 (by decide) (by decide)
    rw [rlookup_emit h0]
    rw [if_pos rfl]
  · intro num ty
    cases num with
    | none =>
      cases ty with
      | none => decide
      | some t => exact str_append_ne_empty "chase_" t (by decide)
    | some n =>
      cases ty with
      | none => exact str_append_ne_empty "chase" n (by decide)
      | some t =>
        refine str_append_ne_empty ("chase_" ++ t) n ?_
        rw [String.data_append]
        intro hc
        exact absurd (List.append_eq_nil.mp hc).1 (by decide)
  · intro stem hdr rows r hr
    rcases emit_discover_mem hr with ⟨rs, r0, hp, hr0, hre⟩
    subst hre
    have h0 : rlookup "Account" r0 = none :=
      discover_row_rlookup_none hp hr0 (by decide) (by decide)
    rw [rlookup_emit h0]
    rw [if_pos rfl]
  · intro num
    cases num with
    | none => decide
    | some n => exact str_append_ne_empty "discover" n (by decide)

/-- C2 witness: a Discover file with no recoverable digits emits the bare
non-empty id `discover`. -/
theorem C2_witness :
    rlookup "Account"
      [("Date", Cell.date 20240601), ("PostDate", Cell.date 20240602),
       ("Description", Cell.str "A"), ("Category", Cell.str "Food"),
       ("Amount", Cell.num (-500) 2), ("TransactionType", Cell.str "DEBIT"),
       ("Account", Cell.str "discover"), ("AccountType", Cell.str "credit")] =
      some (Cell.str (discover_account_id (extract_account_number "discover"))) :=
  C2_account_id_nonempty.2.2.2.1 "discover"
    ["Trans. Date", "Post Date", "Description", "Category", "Amount"]
    [["06/01/2024", "06/02/2024", "A", "Food", "5.00"]] _ (by decide)

/-- C2 counterexample: for a Discover file the account type is recoverable
(the detector fixes it to `credit`), yet the emitted id is the bare
`discover`, not the `"{institution}_{account_type}"` composition
`discover_credit` the claim requires; the `discover_unknown` sentinel is
likewise never produced. -/
theorem C2_counterexample :
    (emit_discover "discover"
        ["Trans. Date", "Post Date", "Description", "Category", "Amount"]
        [["06/01/2024", "06/02/2024", "A", "Food", "5.00"]]).map
      (fun r => rlookup "Account" r) = [some (Cell.str "discover")] ∧
    (identify_file_type "discover"
        ["Trans. Date", "Post Date", "Description", "Category", "Amount"]).2 =
      some "credit" ∧
    specAccountId "discover" (some "credit") none = "discover_credit" ∧
    ("discover" : String) ≠ "discover_credit" := by
  decide
section TraceHelpers

/-- A phase whose column is absent passes the frame through unchanged. -/
theorem phase_false {f : Row → Option Row} {d d2 : List Row}
    (h : phase false f d = some d2) : d = d2 := by
  simpa [phase] using h

/-- A record read against a header row of matching length has a binding for
every header name. -/
theorem rlookup_readRow_isSome {hdr : List String} {a : String} :
    ∀ {cs : List String}, a ∈ hdr → cs.length = hdr.length →
      ∃ v, rlookup a (readRow hdr cs) = some v := by
  induction hdr with
  | nil => intro cs ha; simp at ha
  | cons h t ih =>
    intro cs ha hlen
    cases cs with
    | nil => simp at hlen
    | cons c cs2 =>
      simp at hlen
      by_cases hha : h = a
      · exact ⟨Cell.str c, by simp [readRow, rlookup, hha]⟩
      · rcases List.mem_cons.mp ha with h1 | h1
        · exact absurd h1.symm hha
        · rcases ih h1 hlen with ⟨v, hv⟩
          refine ⟨v, ?_⟩
          simp only [readRow, List.map_cons, List.zip_cons_cons]
          rw [rlookup, if_neg hha]
          exact hv

end TraceHelpers

/-- C6 (confirmed): in the Chase checking descriptor the duplicated raw key
`Posting Date` is silently overwritten, mapping to `PostDate` only and to no
`Date` at all; consequently every record parsed from a checking-format file
carries a `PostDate` binding but no `Date` binding. -/
theorem C6_posting_date_shadowed :
    rlookup "Posting Date" chaseCheckingMapping = some "PostDate" ∧
    "Date" ∉ chaseCheckingMapping.map Prod.snd ∧
    (∀ hdr rows out, chase_is_checking hdr = true →
      (∀ cs ∈ rows, cs.length = hdr.length) →
      parse_chase_csv hdr rows = some out →
      ∀ r ∈ out, rlookup "Date" r = none ∧ ∃ c, rlookup "PostDate" r = some c) := by
  refine ⟨by decide, by decide, ?_⟩
  intro hdr rows out hcheck hwf h r hr
  have hmap : chaseMappingOf hdr = chaseCheckingMapping := by
    rw [chaseMappingOf, if_pos hcheck]
  have hPDhdr : "Posting Date" ∈ hdr := by
    rw [chase_is_checking] at hcheck
    simp only [Bool.and_eq_true] at hcheck
    exact mem_of_contains hcheck.1.2
  have hPDex : "Posting Date" ∈ chaseExisting hdr := by
    rw [chaseExisting]
    refine List.mem_filter.mpr ⟨hPDhdr, ?_⟩
    rw [hmap]
    decide
  have hnoDate : (chaseCols hdr).contains "Date" = false := by
    cases hc : (chaseCols hdr).contains "Date" with
    | false => rfl
    | true =>
      exfalso
      rcases List.mem_map.mp (mem_of_contains hc) with ⟨k, hk, hkeq⟩
      have hk2 : k ∈ chaseCheckingMapping.map Prod.fst := by
        have h3 := mem_of_contains (List.mem_filter.mp hk).2
        rw [hmap] at h3
        exact h3
      rw [hmap] at hkeq
      have hval : ∀ k2 ∈ chaseCheckingMapping.map Prod.fst,
          renameKey chaseCheckingMapping k2 ≠ "Date" := by decide
      exact hval k hk2 hkeq
  have hPDcols : (chaseCols hdr).contains "PostDate" = true := by
    apply contains_of_mem
    rw [chaseCols]
    refine List.mem_map.mpr ⟨"Posting Date", hPDex, ?_⟩
    rw [hmap]
    decide
  rcases parse_chase_phases h with ⟨-, d1, d2, h1, h2, h3⟩
  rw [hnoDate] at h1
  have hd1 : List.map (chasePre hdr) rows = d1 := phase_false h1
  -- no-Date part
  have hkeys := chase_out_keys h hr
  have hDnone : rlookup "Date" r = none := by
    apply rlookup_none_of_keys
    intro p hp
    have h4 := hkeys p hp
    rw [hmap] at h4
    have hvne : ∀ x ∈ chaseCheckingMapping.map Prod.snd, x ≠ "Date" := by decide
    exact hvne p.1 h4
  refine ⟨hDnone, ?_⟩
  -- PostDate part: trace forward from the raw row
  rcases phase_mem_rev h3 hr with ⟨r2, hr2, hc3⟩
  rcases phase_mem_rev h2 hr2 with ⟨r1, hr1, hc2⟩
  rw [← hd1] at hr1
  rcases List.mem_map.mp hr1 with ⟨cs, hcs, hpre⟩
  have hstep0 : ∃ v, rlookup "PostDate" r1 = some v := by
    rcases rlookup_readRow_isSome hPDhdr (hwf cs hcs) with ⟨v, hv⟩
    refine ⟨v, ?_⟩
    rw [← hpre, chasePre]
    have hab : renameKey (chaseMappingOf hdr) "Posting Date" = "PostDate" := by
      rw [hmap]; decide
    have hinj : ∀ p ∈ projectRowChase (chaseExisting hdr) (readRow hdr cs),
        renameKey (chaseMappingOf hdr) p.1 = "PostDate" → p.1 = "Posting Date" := by
      intro p hp hpeq
      have hpk : p.1 ∈ chaseCheckingMapping.map Prod.fst := by
        have h5 := mem_of_contains (List.mem_filter.mp hp).2
        have h6 := mem_of_contains (List.mem_filter.mp h5).2
        rw [hmap] at h6
        exact h6
      rw [hmap] at hpeq
      have hinj2 : ∀ k ∈ chaseCheckingMapping.map Prod.fst,
          renameKey chaseCheckingMapping k = "PostDate" → k = "Posting Date" := by decide
      exact hinj2 p.1 hpk hpeq
    rw [rlookup_renameRow hab hinj]
    rw [projectRowChase, rlookup_filter_key]
    rw [if_pos (contains_of_mem hPDex)]
    exact hv
  rcases hstep0 with ⟨v, hv1⟩
  have hstep2 : ∃ w, rlookup "PostDate" r2 = some w := by
    rcases hc2 with ⟨-, hcs2⟩ | ⟨hfalse, heq⟩
    · rcases cellStep_rlookup_some hcs2 hv1 with ⟨w, -, hw⟩
      exact ⟨w, hw⟩
    · rw [hPDcols] at hfalse
      exact absurd hfalse (by decide)
  rcases hstep2 with ⟨w, hv2⟩
  rcases hc3 with ⟨-, hcs3⟩ | ⟨-, heq⟩
  · have hid : ∀ v2, amtF false "PostDate" v2 = some v2 := by
      intro v2
      have hbeq : (("PostDate" : String) == "Amount") = false := by decide
      simp [amtF, hbeq]
    rw [cellStep_rlookup_id hcs3 hid]
    exact ⟨w, hv2⟩
  · rw [← heq]
    exact ⟨w, hv2⟩

/-- C6 witness: a concrete checking-format Chase file parses to a record
with a `PostDate` binding and no `Date` binding. -/
theorem C6_witness :
    rlookup "Date"
      [("CredDeb", Cell.str "DEBIT"), ("PostDate", Cell.date 20240603),
       ("Description", Cell.str "coffee"), ("Amount", Cell.num (-450) 2),
       ("TransactionType", Cell.str "DEBIT_CARD"), ("CheckNumber", Cell.str "x")] = none ∧
    ∃ c, rlookup "PostDate"
      [("CredDeb", Cell.str "DEBIT"), ("PostDate", Cell.date 20240603),
       ("Description", Cell.str "coffee"), ("Amount", Cell.num (-450) 2),
       ("TransactionType", Cell.str "DEBIT_CARD"), ("CheckNumber", Cell.str "x")] = some c :=
  C6_posting_date_shadowed.2.2
    ["Details", "Posting Date", "Description", "Amount", "Type", "Balance", "Check or Slip #"]
    [["DEBIT", "06/03/2024", "coffee", "-4.50", "DEBIT_CARD", "100.00", "x"]]
    [[("CredDeb", Cell.str "DEBIT"), ("PostDate", Cell.date 20240603),
      ("Description", Cell.str "coffee"), ("Amount", Cell.num (-450) 2),
      ("TransactionType", Cell.str "DEBIT_CARD"), ("CheckNumber", Cell.str "x")]]
    (by decide) (by decide) (by decide) _ (by decide)
/-- C1 (amended): a row whose date value fails parsing aborts normalization
of that whole file: the parser returns `None` (the raised conversion error
is caught by the per-file handler), the file is skipped and contributes
zero records; only the other files continue.  A 5-row file with one
malformed date therefore yields 0 output records, not 4. -/
theorem C1_malformed_date_aborts_file :
    (∀ hdr rows cs s, cs ∈ rows → chase_is_checking hdr = false →
       rlookup "Transaction Date" (readRow hdr cs) = some (Cell.str s) →
       parseDate (chars s) = none →
       parse_chase_csv hdr rows = none ∧ ∀ stem, emit_chase stem hdr rows = []) ∧
    (∀ hdr rows cs s, cs ∈ rows →
       rlookup "Trans. Date" (readRow hdr cs) = some (Cell.str s) →
       parseDate (chars s) = none →
       parse_discover_csv hdr rows = none ∧ ∀ stem, emit_discover stem hdr rows = []) := by
  constructor
  · intro hdr rows cs s hcs hchk hlook hbad
    have hmap : chaseMappingOf hdr = chaseCreditMapping := by
      rw [chaseMappingOf, if_neg (by rw [hchk]; decide)]
    have hTD : "Transaction Date" ∈ hdr := (List.of_mem_zip (rlookup_some_mem hlook)).1
    have hTDex : "Transaction Date" ∈ chaseExisting hdr := by
      rw [chaseExisting]
      refine List.mem_filter.mpr ⟨hTD, ?_⟩
      rw [hmap]
      decide
    have hEne : ¬ (chaseExisting hdr).isEmpty = true := by
      cases hx : chaseExisting hdr with
      | nil => rw [hx] at hTDex; simp at hTDex
      | cons a l => simp
    have hDcols : (chaseCols hdr).contains "Date" = true := by
      apply contains_of_mem
      rw [chaseCols]
      refine List.mem_map.mpr ⟨"Transaction Date", hTDex, ?_⟩
      rw [hmap]
      decide
    have hrow : rlookup "Date" (chasePre hdr cs) = some (Cell.str s) := by
      rw [chasePre]
      have hab : renameKey (chaseMappingOf hdr) "Transaction Date" = "Date" := by
        rw [hmap]; decide
      have hinj : ∀ p ∈ projectRowChase (chaseExisting hdr) (readRow hdr cs),
          renameKey (chaseMappingOf hdr) p.1 = "Date" → p.1 = "Transaction Date" := by
        intro p hp hpeq
        have hpk : p.1 ∈ chaseCreditMapping.map Prod.fst := by
          have h5 := mem_of_contains (List.mem_filter.mp hp).2
          have h6 := mem_of_contains (List.mem_filter.mp h5).2
          rw [hmap] at h6
          exact h6
        rw [hmap] at hpeq
        have hinj2 : ∀ k ∈ chaseCreditMapping.map Prod.fst,
            renameKey chaseCreditMapping k = "Date" → k = "Transaction Date" := by decide
        exact hinj2 p.1 hpk hpeq
      rw [rlookup_renameRow hab hinj, projectRowChase, rlookup_filter_key,
          if_pos (contains_of_mem hTDex)]
      exact hlook
    have hcell : cellStep (dateF "Date") (chasePre hdr cs) = none :=
      cellStep_none hrow (by simp [dateF, hbad])
    have hphase : phase ((chaseCols hdr).contains "Date") (cellStep (dateF "Date"))
        (rows.map (chasePre hdr)) = none := by
      rw [hDcols]
      unfold phase
      rw [if_pos rfl]
      exact mapMO_none_of_mem (List.mem_map_of_mem _ hcs) hcell
    have hp : parse_chase_csv hdr rows = none := by
      unfold parse_chase_csv
      rw [if_neg hEne, hphase]
    refine ⟨hp, fun stem => ?_⟩
    unfold emit_chase
    rw [hp]
  · intro hdr rows cs s hcs hlook hbad
    have hTD : "Trans. Date" ∈ hdr := (List.of_mem_zip (rlookup_some_mem hlook)).1
    have hTDex : "Trans. Date" ∈ discoverCols0 hdr := by
      rw [discoverCols0]
      exact List.mem_filter.mpr ⟨by decide, contains_of_mem hTD⟩
    have hDcols : (discoverCols hdr).contains "Date" = true := by
      apply contains_of_mem
      rw [discoverCols]
      exact List.mem_map.mpr ⟨"Trans. Date", hTDex, by decide⟩
    have hnodup : (discoverCols0 hdr).Nodup := by
      rw [discoverCols0]
      exact List.Nodup.filter _ (by decide)
    have hrow : rlookup "Date" (discoverPre hdr cs) = some (Cell.str s) := by
      rw [discoverPre]
      have hab : renameKey discoverMapping "Trans. Date" = "Date" := by decide
      have hinj : ∀ p ∈ projectRowDiscover (discoverCols0 hdr) (readRow hdr cs),
          renameKey discoverMapping p.1 = "Date" → p.1 = "Trans. Date" := by
        intro p hp hpeq
        have hpk : p.1 ∈ discoverMapping.map Prod.fst :=
          (List.mem_filter.mp (keys_projectRowDiscover p hp)).1
        have hinj2 : ∀ k ∈ discoverMapping.map Prod.fst,
            renameKey discoverMapping k = "Date" → k = "Trans. Date" := by decide
        exact hinj2 p.1 hpk hpeq
      rw [rlookup_renameRow hab hinj, rlookup_projectRowDiscover hnodup hTDex]
      exact hlook
    have hcell : cellStep (dateF "Date") (discoverPre hdr cs) = none :=
      cellStep_none hrow (by simp [dateF, hbad])
    have hphase : phase ((discoverCols hdr).contains "Date") (cellStep (dateF "Date"))
        (rows.map (discoverPre hdr)) = none := by
      rw [hDcols]
      unfold phase
      rw [if_pos rfl]
      exact mapMO_none_of_mem (List.mem_map_of_mem _ hcs) hcell
    have hp : parse_discover_csv hdr rows = none := by
      unfold parse_discover_csv
      rw [hphase]
    refine ⟨hp, fun stem => ?_⟩
    unfold emit_discover
    rw [hp]

/-- C1 witness: a one-row Discover file with a malformed date parses to
`None` and emits nothing. -/
theorem C1_witness :
    parse_discover_csv ["Trans. Date", "Post Date", "Description", "Category", "Amount"]
      [["junk", "06/02/2024", "A", "Food", "5.00"]] = none ∧
    emit_discover "discover" ["Trans. Date", "Post Date", "Description", "Category", "Amount"]
      [["junk", "06/02/2024", "A", "Food", "5.00"]] = [] :=
  have h := C1_malformed_date_aborts_file.2
    ["Trans. Date", "Post Date", "Description", "Category", "Amount"]
    [["junk", "06/02/2024", "A", "Food", "5.00"]]
    ["junk", "06/02/2024", "A", "Food", "5.00"] "junk"
    (by decide) (by decide) (by decide)
  ⟨h.1, h.2 "discover"⟩

/-- C1 counterexample: the claimed row-level tolerance fails: a 5-row
Discover file with one malformed date yields 0 output records (the whole
file fails), not the 4 the claim requires. -/
theorem C1_counterexample :
    parse_discover_csv
      ["Trans. Date", "Post Date", "Description", "Category", "Amount"]
      [["06/01/2024", "06/02/2024", "A", "Food", "5.00"],
       ["06/02/2024", "06/03/2024", "B", "Food", "-3.25"],
       ["garbage", "06/04/2024", "C", "Food", "7"],
       ["06/04/2024", "06/05/2024", "D", "Food", "1.10"],
       ["06/05/2024", "06/06/2024", "E", "Food", "2"]] = none ∧
    (emit_discover "discover"
      ["Trans. Date", "Post Date", "Description", "Category", "Amount"]
      [["06/01/2024", "06/02/2024", "A", "Food", "5.00"],
       ["06/02/2024", "06/03/2024", "B", "Food", "-3.25"],
       ["garbage", "06/04/2024", "C", "Food", "7"],
       ["06/04/2024", "06/05/2024", "D", "Food", "1.10"],
       ["06/05/2024", "06/06/2024", "E", "Food", "2"]]).length = 0 ∧
    (0 : Nat) ≠ 4 := by
  decide
/-- C3 (confirmed): Discover normalization negates every parsed amount;
`TransactionType`, absent from the Discover source columns, is synthesized
as `CREDIT` for non-negative normalized amounts and `DEBIT` otherwise, so
every normalized Discover record tagged `DEBIT` has a strictly negative
amount. -/
theorem C3_discover_sign_rules (hdr : List String) (rows : List (List String))
    (out : List Row) (h : parse_discover_csv hdr rows = some out) :
    List.Forall₂ (fun raw r => ∀ s n sc,
        rlookup "Amount" (readRow hdr raw) = some (Cell.str s) →
        parseAmount (chars s) = some (n, sc) →
        rlookup "Amount" r = some (Cell.num (-n) sc)) rows out ∧
    (∀ r ∈ out, ∃ n sc, rlookup "Amount" r = some (Cell.num n sc) ∧
        rlookup "TransactionType" r =
          some (Cell.str (if 0 ≤ n then "CREDIT" else "DEBIT"))) ∧
    (∀ r ∈ out, rlookup "TransactionType" r = some (Cell.str "DEBIT") →
        ∃ n sc, rlookup "Amount" r = some (Cell.num n sc) ∧ n < 0) := by
  rcases parse_discover_phases h with ⟨d1, d2, d3, h1, h2, h3, hA, hsyn⟩
  have hpart2 : ∀ r ∈ out, ∃ n sc, rlookup "Amount" r = some (Cell.num n sc) ∧
      rlookup "TransactionType" r =
        some (Cell.str (if 0 ≤ n then "CREDIT" else "DEBIT")) := by
    intro r hr
    rcases discover_out_row h hr with ⟨r3, n, sc, hamt, hre, hkeys⟩
    subst hre
    have h3n : rlookup "TransactionType" r3 = none := by
      apply rlookup_none_of_keys
      intro p hp hpa
      have hv := hkeys p hp
      rw [hpa] at hv
      revert hv
      decide
    refine ⟨n, sc, ?_, ?_⟩
    · rw [rlookup_append, hamt]
    · rw [rlookup_append, h3n]
      simp [rlookup]
  refine ⟨?_, hpart2, ?_⟩
  · -- the amount negation correspondence, row by row
    have F0 : List.Forall₂ (fun raw r0 => discoverPre hdr raw = r0) rows
        (rows.map (discoverPre hdr)) :=
      List.forall₂_map_right_iff.mpr (List.forall₂_same.mpr (fun x _ => rfl))
    have C1r := forall₂_comp F0 (phase_forall₂ h1)
    have C2r := forall₂_comp C1r (phase_forall₂ h2)
    have C3r := forall₂_comp C2r (phase_forall₂ h3)
    have C4r := forall₂_comp C3r (mapMO_forall₂ hsyn)
    refine C4r.imp ?_
    intro raw r hcomp s n sc hlook hparse
    rcases hcomp with ⟨r3, ⟨r2, ⟨r1, ⟨r0, hpre, hrel1⟩, hrel2⟩, hrel3⟩, hs⟩
    have hAhdr : "Amount" ∈ hdr := (List.of_mem_zip (rlookup_some_mem hlook)).1
    have hAmex : "Amount" ∈ discoverCols0 hdr := by
      rw [discoverCols0]
      exact List.mem_filter.mpr ⟨by decide, contains_of_mem hAhdr⟩
    have hnodup : (discoverCols0 hdr).Nodup := by
      rw [discoverCols0]
      exact List.Nodup.filter _ (by decide)
    have hAm0 : rlookup "Amount" r0 = some (Cell.str s) := by
      rw [← hpre, discoverPre]
      have hab : renameKey discoverMapping "Amount" = "Amount" := by decide
      have hinj : ∀ p ∈ projectRowDiscover (discoverCols0 hdr) (readRow hdr raw),
          renameKey discoverMapping p.1 = "Amount" → p.1 = "Amount" := by
        intro p hp hpeq
        have hpk : p.1 ∈ discoverMapping.map Prod.fst :=
          (List.mem_filter.mp (keys_projectRowDiscover p hp)).1
        have hinj2 : ∀ k ∈ discoverMapping.map Prod.fst,
            renameKey discoverMapping k = "Amount" → k = "Amount" := by decide
        exact hinj2 p.1 hpk hpeq
      rw [rlookup_renameRow hab hinj, rlookup_projectRowDiscover hnodup hAmex]
      exact hlook
    have hAm1 : rlookup "Amount" r1 = some (Cell.str s) := by
      rcases hrel1 with ⟨-, hcs⟩ | ⟨-, heq⟩
      · have hid : ∀ v, dateF "Date" "Amount" v = some v := by
          intro v
          have hbeq : (("Amount" : String) == "Date") = false := by decide
          simp [dateF, hbeq]
        rw [cellStep_rlookup_id hcs hid]
        exact hAm0
      · rw [← heq]
        exact hAm0
    have hAm2 : rlookup "Amount" r2 = some (Cell.str s) := by
      rcases hrel2 with ⟨-, hcs⟩ | ⟨-, heq⟩
      · have hid : ∀ v, dateF "PostDate" "Amount" v = some v := by
          intro v
          have hbeq : (("Amount" : String) == "PostDate") = false := by decide
          simp [dateF, hbeq]
        rw [cellStep_rlookup_id hcs hid]
        exact hAm1
      · rw [← heq]
        exact hAm1
    have hAm3 : rlookup "Amount" r3 = some (Cell.num (-n) sc) := by
      rcases hrel3 with ⟨-, hcs⟩ | ⟨hfalse, -⟩
      · rcases cellStep_rlookup_some hcs hAm2 with ⟨w, hw1, hw2⟩
        have hval : amtF true "Amount" (Cell.str s) = some (Cell.num (-n) sc) := by
          simp [amtF, hparse]
        rw [← Option.some.inj (hval.symm.trans hw1)] at hw2
        exact hw2
      · rw [hA] at hfalse
        exact absurd hfalse (by decide)
    rcases synthRow_spec hs with ⟨n2, sc2, -, hre⟩
    subst hre
    rw [rlookup_append, hAm3]
  · intro r hr hTT
    rcases hpart2 r hr with ⟨n, sc, hamt, hTTval⟩
    refine ⟨n, sc, hamt, ?_⟩
    have heq : some (Cell.str (if 0 ≤ n then "CREDIT" else "DEBIT")) =
        some (Cell.str "DEBIT") := by rw [← hTTval, hTT]
    by_cases hn : 0 ≤ n
    · exfalso
      rw [if_pos hn] at heq
      have h2 := Cell.str.inj (Option.some.inj heq)
      exact absurd h2 (by decide)
    · exact Int.not_le.mp hn

/-- C3 witness: a concrete Discover row with amount `5.00` is negated to
`-5.00` and tagged `DEBIT`, and the `DEBIT` tag implies the negative
amount. -/
theorem C3_witness :
    ∃ n sc, rlookup "Amount"
      [("Date", Cell.date 20240601), ("PostDate", Cell.date 20240602),
       ("Description", Cell.str "A"), ("Category", Cell.str "Food"),
       ("Amount", Cell.num (-500) 2), ("TransactionType", Cell.str "DEBIT")] =
      some (Cell.num n sc) ∧ n < 0 :=
  (C3_discover_sign_rules
    ["Trans. Date", "Post Date", "Description", "Category", "Amount"]
    [["06/01/2024", "06/02/2024", "A", "Food", "5.00"]]
    [[("Date", Cell.date 20240601), ("PostDate", Cell.date 20240602),
      ("Description", Cell.str "A"), ("Category", Cell.str "Food"),
      ("Amount", Cell.num (-500) 2), ("TransactionType", Cell.str "DEBIT")]]
    (by decide)).2.2 _ (by decide) (by decide)
section SortLemmas

/-- Inserting into the sorted list permutes with consing. -/
theorem insertSorted_perm (r : Row) : ∀ (l : List Row),
    List.Perm (insertSorted r l) (r :: l) := by
  intro l
  induction l with
  | nil => exact List.Perm.refl _
  | cons x xs ih =>
    simp only [insertSorted]
    by_cases hc : keyNat r < keyNat x
    · rw [if_pos hc]
    · rw [if_neg hc]
      exact (ih.cons x).trans (List.Perm.swap r x xs)

/-- The insertion sort permutes its input. -/
theorem sortDated_perm : ∀ (l : List Row), List.Perm (sortDated l) l := by
  intro l
  induction l with
  | nil => exact List.Perm.refl _
  | cons x xs ih =>
    simp only [sortDated, List.foldr_cons]
    exact (insertSorted_perm x (sortDated xs)).trans (ih.cons x)

/-- Membership in the sorted list is membership in the input. -/
theorem mem_sortDated {a : Row} {l : List Row} (h : a ∈ sortDated l) : a ∈ l :=
  (sortDated_perm l).mem_iff.mp h

/-- Insertion preserves sortedness by the date key. -/
theorem insertSorted_pairwise (r : Row) : ∀ {l : List Row},
    List.Pairwise (fun a b => keyNat a ≤ keyNat b) l →
    List.Pairwise (fun a b => keyNat a ≤ keyNat b) (insertSorted r l) := by
  intro l
  induction l with
  | nil => intro _; simp [insertSorted]
  | cons x xs ih =>
    intro h
    rcases List.pairwise_cons.mp h with ⟨hx, hxs⟩
    simp only [insertSorted]
    by_cases hc : keyNat r < keyNat x
    · rw [if_pos hc]
      refine List.Pairwise.cons ?_ h
      intro b hb
      rcases List.mem_cons.mp hb with rfl | hb2
      · exact Nat.le_of_lt hc
      · exact Nat.le_trans (Nat.le_of_lt hc) (hx b hb2)
    · rw [if_neg hc]
      refine List.Pairwise.cons ?_ (ih hxs)
      intro b hb
      have hmem : b = r ∨ b ∈ xs := by
        simpa using (insertSorted_perm r xs).mem_iff.mp hb
      rcases hmem with rfl | hb2
      · exact Nat.le_of_not_lt hc
      · exact hx b hb2

/-- The insertion sort sorts by the date key. -/
theorem sortDated_pairwise : ∀ (l : List Row),
    List.Pairwise (fun a b => keyNat a ≤ keyNat b) (sortDated l) := by
  intro l
  induction l with
  | nil => simp [sortDated]
  | cons x xs ih =>
    simp only [sortDated, List.foldr_cons]
    exact insertSorted_pairwise x ih

/-- A relation holding for all pairs of members holds pairwise. -/
theorem pairwise_of_all {R : Row → Row → Prop} : ∀ {l : List Row},
    (∀ a ∈ l, ∀ b ∈ l, R a b) → List.Pairwise R l := by
  intro l
  induction l with
  | nil => intro _; exact List.Pairwise.nil
  | cons x xs ih =>
    intro h
    refine List.Pairwise.cons ?_ (ih ?_)
    · intro b hb
      exact h x (List.mem_cons_self _ _) b (List.mem_cons_of_mem _ hb)
    · intro a ha b hb
      exact h a (List.mem_cons_of_mem _ ha) b (List.mem_cons_of_mem _ hb)

/-- Records without a date compare after anything. -/
theorem dateLe_of_none {a b : Row} (hb : dateKey b = none) : dateLe a b := by
  unfold dateLe
  rw [hb]
  cases dateKey a <;> trivial

/-- Dated records compare by their keys. -/
theorem dateLe_of_keys {a b : Row} {x y : Nat} (ha : dateKey a = some x)
    (hb : dateKey b = some y) (hxy : keyNat a ≤ keyNat b) : dateLe a b := by
  unfold dateLe
  rw [ha, hb]
  rw [keyNat, keyNat, ha, hb] at hxy
  exact hxy

/-- The date sort is pairwise ordered: ascending on dated records, records
without a date last. -/
theorem sortOnDate_pairwise (rs : List Row) :
    List.Pairwise dateLe (sortOnDate rs) := by
  rw [sortOnDate, List.pairwise_append]
  refine ⟨?_, ?_, ?_⟩
  · have hs := sortDated_pairwise (rs.filter hasDate)
    refine List.Pairwise.imp_of_mem ?_ hs
    intro a b ha hb hab
    have ha2 : hasDate a = true := (List.mem_filter.mp (mem_sortDated ha)).2
    have hb2 : hasDate b = true := (List.mem_filter.mp (mem_sortDated hb)).2
    rw [hasDate, Option.isSome_iff_exists] at ha2 hb2
    rcases ha2 with ⟨x, hx⟩
    rcases hb2 with ⟨y, hy⟩
    exact dateLe_of_keys hx hy hab
  · apply pairwise_of_all
    intro a _ b hb
    have hb2 := (List.mem_filter.mp hb).2
    simp only [Bool.not_eq_true'] at hb2
    rw [hasDate] at hb2
    exact dateLe_of_none (Option.not_isSome_iff_eq_none.mp (by simp [hb2]))
  · intro a _ b hb
    have hb2 := (List.mem_filter.mp hb).2
    simp only [Bool.not_eq_true'] at hb2
    rw [hasDate] at hb2
    exact dateLe_of_none (Option.not_isSome_iff_eq_none.mp (by simp [hb2]))

/-- The date sort permutes its input. -/
theorem sortOnDate_perm (rs : List Row) : List.Perm (sortOnDate rs) rs := by
  rw [sortOnDate]
  exact ((sortDated_perm _).append (List.Perm.refl _)).trans
    (List.filter_append_perm _ rs)

/-- The date sort keeps the dateless records in their original relative
order at the end. -/
theorem sortOnDate_undated (rs : List Row) :
    (sortOnDate rs).filter (fun r => !hasDate r) = rs.filter (fun r => !hasDate r) := by
  rw [sortOnDate, List.filter_append]
  have h1 : (sortDated (rs.filter hasDate)).filter (fun r => !hasDate r) = [] := by
    apply List.filter_eq_nil_iff.mpr
    intro a ha
    have h2 := (List.mem_filter.mp (mem_sortDated ha)).2
    simp [h2]
  have h2 : (rs.filter (fun r => !hasDate r)).filter (fun r => !hasDate r) =
      rs.filter (fun r => !hasDate r) := by
    apply List.filter_eq_self.mpr
    intro a ha
    exact (List.mem_filter.mp ha).2
  rw [h1, h2, List.nil_append]

end SortLemmas

/-- C7 (confirmed): aggregation concatenates the per-file record sets and
orders the result ascending by `Date`: the output is a permutation of the
concatenation, pairwise ordered with records missing a date after every
dated record, the missing-date records keep their original relative order,
and the specification example `[06-03, 06-01] + [06-02]` sorts to
`[06-01, 06-02, 06-03]`. -/
theorem C7_aggregate_sorted :
    (∀ sets : List (List Row),
       List.Pairwise dateLe (aggregate sets) ∧
       List.Perm (aggregate sets) sets.flatten ∧
       (aggregate sets).filter (fun r => !hasDate r) =
         sets.flatten.filter (fun r => !hasDate r)) ∧
    aggregate [[[("Date", Cell.date 20240603)], [("Date", Cell.date 20240601)]],
               [[("Date", Cell.date 20240602)]]] =
      [[("Date", Cell.date 20240601)], [("Date", Cell.date 20240602)],
       [("Date", Cell.date 20240603)]] := by
  constructor
  · intro sets
    exact ⟨sortOnDate_pairwise _, sortOnDate_perm _, sortOnDate_undated _⟩
  · decide
